import Mathlib

/-!
Verification development for the Python-EZ-Backup repository.

The repository's core is the recursive, fan-out copy engine
`BackupSelection.run` in `backup_helpers.py`, together with the helper
functions `check_existing_file` and `count_total_files`, and the
aggregating `MainWindow` in `main.py`.

Shallow embedding conventions used throughout this file:
- Filesystem paths are lists of path components (`FsPath := List String`).
- The source selection is a finite tree (`Entry`): a file carries its size
  and its modification time; a directory carries a named list of children.
  Modification times are modeled as naturals; the code only ever compares
  them with a strict `>` (`check_existing_file`), so only their order matters.
- The destination is a finite map from paths to `(size, mtime)` pairs,
  represented as an association list updated by consing (`Dst`).
- The worker's Qt signals (`progress`, `memory_count`, `status`, `error`,
  `new_thread`, `finished`) become constructors of an `Event` type; one
  execution of `BackupSelection.run` produces the list of events it emits,
  in emission order, plus the updated destination map.
- Fallible OS calls (`os.makedirs`, `os.listdir`, `os.path.getsize`,
  `shutil.copy2`) are driven by an environment `Env` of oracles that decide,
  per path, whether the call raises `OSError`.  `ErrorFree` says none does.
- Python exception flow inside `run` is explicit: the body of the
  `try:` block (`runBodyU` / `runAllE`) returns its emitted events, the
  updated destination and an `Option Fault` (raised exception, if any);
  the surrounding `except WorkerKilledException / except Exception /
  finally` clauses become the `finishEvents` wrapper.
- `self.is_killed` is read once per loop iteration; since another thread
  may set it at any moment, the value read at iteration `i` is an arbitrary
  function `killed : Nat → Bool`.
- `BackupSelection.run` is embedded twice, from the same source lines:
  `runUnit` is one Task Unit exactly as written (child directories only
  emit a `new_thread`/`spawn` event), while `runAll` is the whole-run
  semantics in which each spawned child worker is executed at its spawn
  point (a sequentialization of the thread pool; the claims settled with
  `runAll` are about cancellation-free runs, where the interleaving does
  not affect the totals and final filesystem state being proved).
-/

/-! ### Paths and Python string helpers -/

abbrev FsPath := List String

/-- `Path.name` in Python: the final component of a path (`""` for an empty
path, which never arises for a real selection). -/
def lastName (p : FsPath) : String := p.getLastD ""

/-- Rendering of a path for error-message strings (only used inside the
text of `error` events). -/
def pathStr (p : FsPath) : String := String.intercalate "/" p

/-- Python's `str.endswith`: suffix test on the character sequence.  In
particular every string ends with the empty string. -/
def pyEndswith (s suffix : String) : Bool := decide (suffix.data <:+ s.data)

/-- Python's `str.split(sep)` for a one-character separator: split the
character sequence at every occurrence of the separator, keeping empty
pieces — so a trailing comma yields a trailing `""` element. -/
def pySplitChar (sep : Char) : List Char → List Char → List String
  | [], acc => [String.mk acc.reverse]
  | c :: rest, acc =>
    if c = sep then String.mk acc.reverse :: pySplitChar sep rest []
    else pySplitChar sep rest (c :: acc)

/-- `main.py` line 575: `self.input_exclude_by.text().split(',') if
self.input_exclude_by.text() else []`. -/
def splitExts (t : String) : List String :=
  if t = "" then [] else pySplitChar ',' t.data []

/-! ### The source selection tree -/

mutual
/-- A filesystem entry of the source selection: a file (with size and
modification time) or a directory with named children. -/
inductive Entry where
  | file (size mtime : Nat)
  | dir (children : EntryList)
/-- The children of a directory, in `os.listdir` order. -/
inductive EntryList where
  | nil
  | cons (name : String) (e : Entry) (rest : EntryList)
end

/-- The child names of a directory listing. -/
def namesE : EntryList → List String
  | .nil => []
  | .cons n _ rest => n :: namesE rest

mutual
/-- Well-formedness of a source tree: every directory's children have
pairwise distinct names (true of any real directory listing). -/
def wfEntry : Entry → Bool
  | .file _ _ => true
  | .dir cs => decide (namesE cs).Nodup && wfEntryList cs
def wfEntryList : EntryList → Bool
  | .nil => true
  | .cons _ e rest => wfEntry e && wfEntryList rest
end

mutual
/-- `backup_helpers.py` lines 56-63, for one selection item: a file counts
1 (`os.path.isfile` branch); a directory contributes `len(files)` for every
level of `os.walk`, i.e. the number of file descendants at every depth. -/
def walkCount : Entry → Nat
  | .file _ _ => 1
  | .dir cs => walkCountL cs
def walkCountL : EntryList → Nat
  | .nil => 0
  | .cons _ e rest => walkCount e + walkCountL rest
end

/-- `count_total_files` (`backup_helpers.py` lines 50-63) applied to the
included selection: the sum of the per-item counts. -/
def count_total_files (roots : List (FsPath × Entry)) : Nat :=
  (roots.map fun r => walkCount r.2).sum

/-! ### The destination store -/

/-- The destination: an association list from (absolute) destination paths
to `(size, mtime)` of the file stored there.  Updates cons a new binding;
`lookupFile` returns the most recent one. -/
abbrev Dst := List (FsPath × Nat × Nat)

def lookupFile : Dst → FsPath → Option (Nat × Nat)
  | [], _ => none
  | kv :: rest, p => if kv.1 = p then some kv.2 else lookupFile rest p

/-- Effect of `shutil.copy2 src dst`: the destination file gets the source's
content (size) and, because `copy2` preserves metadata, the source's
modification time. -/
def setFile (d : Dst) (p : FsPath) (sz mt : Nat) : Dst := (p, sz, mt) :: d

/-- `check_existing_file` (`backup_helpers.py` lines 39-42): `True` iff the
source's modification time is strictly greater than the destination's. -/
def check_existing_file (mtimeSrc mtimeDst : Nat) : Bool := decide (mtimeSrc > mtimeDst)

/-! ### Events, faults and the environment -/

/-- The signals of `WorkerSignals` that a running worker emits, in
emission order.  `spawn` is the `new_thread` signal, identified by the
spawned worker's source and destination paths; `error` carries the
log-message component of the emitted error tuple. -/
inductive Event where
  | progress (n : Nat)
  | memory (n : Nat)
  | status (s : String)
  | error (ctx : String)
  | spawn (src : FsPath) (dst : FsPath)
  | finished
deriving DecidableEq, Repr

/-- An exception escaping the body of the `try:` in `run`: either the
`WorkerKilledException` raised at the `is_killed` check, or any other
exception (an `OSError` from an unguarded filesystem call). -/
inductive Fault where
  | killed
  | exn
deriving DecidableEq, Repr

/-- Oracles deciding which individual filesystem operations raise
`OSError`: directory creation (keyed by the directory being created),
directory listing and `os.path.getsize` (keyed by the source path) and
`shutil.copy2` (keyed by the destination file path). -/
structure Env where
  mkdirFails : FsPath → Bool
  listFails : FsPath → Bool
  getsizeFails : FsPath → Bool
  copyFails : FsPath → Bool

/-- An error-free run: no filesystem operation fails. -/
def ErrorFree (env : Env) : Prop :=
  (∀ p, env.mkdirFails p = false) ∧ (∀ p, env.listFails p = false) ∧
  (∀ p, env.getsizeFails p = false) ∧ (∀ p, env.copyFails p = false)

/-- The environment in which every operation succeeds. -/
def okEnv : Env := ⟨fun _ => false, fun _ => false, fun _ => false, fun _ => false⟩

/-- A cancellation-free run: the `is_killed` flag reads `False` at every
check. -/
def noKill : Nat → Bool := fun _ => false

/-! ### The per-file copy decision -/

/-- `backup_helpers.py` lines 200-228 (directory-child case) and 237-263
(root-file case), which are the same decision up to the destination file
path: given the source file (path, size, mtime) and its destination file
path, consult the destination; if the destination file exists, overwrite it
only when `check_existing_file` holds, emitting the progress unit in every
destination-exists case; if it is absent, copy it, emitting the progress
unit only on success.  `memory_count` is emitted only after a successful
copy.  Event order matches the source exactly. -/
def backupFile (env : Env) (srcFile : FsPath) (sz mt : Nat) (dstFile : FsPath) (d : Dst) :
    List Event × Dst :=
  match lookupFile d dstFile with
  | some x =>
    if check_existing_file mt x.2 then
      if env.copyFails dstFile then
        ([Event.status (lastName srcFile ++ "..."),
          Event.error ("error overwriting file " ++ pathStr srcFile),
          Event.progress 1], d)
      else
        ([Event.status (lastName srcFile ++ "..."),
          Event.memory sz, Event.progress 1], setFile d dstFile sz mt)
    else ([Event.progress 1], d)
  | none =>
    if env.copyFails dstFile then
      ([Event.status (lastName srcFile ++ "..."),
        Event.error ("error copying new file " ++ pathStr srcFile)], d)
    else
      ([Event.status (lastName srcFile ++ "..."),
        Event.progress 1, Event.memory sz], setFile d dstFile sz mt)

/-- The `except WorkerKilledException / except Exception / finally`
clauses of `run` (`backup_helpers.py` lines 265-272): a worker-killed
exception becomes a status event, any other exception becomes a structured
error event, and the `finished` signal is emitted unconditionally, last. -/
def finishEvents (srcPath : FsPath) : Option Fault → List Event
  | none => [Event.finished]
  | some .killed => [Event.status "worker killed", Event.finished]
  | some .exn =>
      [Event.error ("error running backup for " ++ pathStr srcPath), Event.finished]

/-! ### One Task Unit: `BackupSelection.run` -/

/-- The child loop of `run` (`backup_helpers.py` lines 167-228) for one
Task Unit: `i` is the loop iteration (for the `is_killed` read), `srcPath`
the worker's source directory and `dstP` its (already root-nested)
destination.  A child directory only emits the `new_thread` signal (line
189); the spawned worker is executed by the thread pool, not here. -/
def runChildrenU (env : Env) (ign : List FsPath) (exts : List String) (killed : Nat → Bool)
    (srcPath dstP : FsPath) : EntryList → Nat → Dst → List Event × Dst × Option Fault
  | .nil, _, d => ([], d, none)
  | .cons n c rest, i, d =>
    if killed i then ([], d, some .killed)
    else if (srcPath ++ [n]) ∈ ign then
      let r := runChildrenU env ign exts killed srcPath dstP rest (i + 1) d
      (Event.progress 1 :: Event.status n :: r.1, r.2)
    else
      match c with
      | .dir _ =>
        let r := runChildrenU env ign exts killed srcPath dstP rest (i + 1) d
        (Event.spawn (srcPath ++ [n]) (dstP ++ [n]) :: r.1, r.2)
      | .file sz mt =>
        if exts.any fun ext => pyEndswith n ext then
          let r := runChildrenU env ign exts killed srcPath dstP rest (i + 1) d
          (Event.progress 1 :: Event.status ("ignoring extension: " ++ n ++ "...") :: r.1, r.2)
        else if env.getsizeFails (srcPath ++ [n]) then ([], d, some .exn)
        else
          let rf := backupFile env (srcPath ++ [n]) sz mt (dstP ++ [n]) d
          let r := runChildrenU env ign exts killed srcPath dstP rest (i + 1) rf.2
          (rf.1 ++ r.1, r.2)

/-- The body of the `try:` block of `run` (`backup_helpers.py` lines
145-263) for one Task Unit.  Directory case: create the destination
directory (line 149, unguarded — a failure is a `Fault`); if this is a
root worker, nest the destination one level under the source's base name
(lines 151-163 — a failure there is caught in place, emitting an error and
returning); list the children (line 166, unguarded) and run the child
loop.  File case (lines 230-263): extension exclusion, then the copy
decision; `os.path.getsize` (line 237) is unguarded. -/
def runBodyU (env : Env) (ign : List FsPath) (exts : List String) (killed : Nat → Bool)
    (srcPath : FsPath) (e : Entry) (dstPath : FsPath) (root : Bool) (d : Dst) :
    List Event × Dst × Option Fault :=
  match e with
  | .dir cs =>
    if env.mkdirFails dstPath then ([], d, some .exn)
    else if root && env.mkdirFails (dstPath ++ [lastName srcPath]) then
      ([Event.error ("error creating directory " ++ pathStr (dstPath ++ [lastName srcPath]))],
       d, none)
    else
      let dstP := if root then dstPath ++ [lastName srcPath] else dstPath
      if env.listFails srcPath then ([], d, some .exn)
      else runChildrenU env ign exts killed srcPath dstP cs 0 d
  | .file sz mt =>
    if exts.any fun ext => pyEndswith (lastName srcPath) ext then
      ([Event.status (lastName srcPath ++ "..."), Event.progress 1], d, none)
    else if env.getsizeFails srcPath then ([], d, some .exn)
    else
      let rf := backupFile env srcPath sz mt (dstPath ++ [lastName srcPath]) d
      (rf.1, rf.2, none)

/-- One Task Unit: `BackupSelection.run` (`backup_helpers.py` lines
143-272), body wrapped by its exception handlers and the `finally` that
emits `finished`. -/
def runUnit (env : Env) (ign : List FsPath) (exts : List String) (killed : Nat → Bool)
    (srcPath : FsPath) (e : Entry) (dstPath : FsPath) (root : Bool) (d : Dst) :
    List Event × Dst :=
  let r := runBodyU env ign exts killed srcPath e dstPath root d
  (r.1 ++ finishEvents srcPath r.2.2, r.2.1)

/-! ### Whole-run semantics: spawned workers executed -/

mutual
/-- Same source lines as `runBodyU`, with each spawned child worker
executed (with its own exception wrapper and `finished` event) at its
spawn point: the sequentialized whole-run semantics. -/
def runAllE (env : Env) (ign : List FsPath) (exts : List String) (killed : Nat → Bool) :
    FsPath → Entry → FsPath → Bool → Dst → List Event × Dst × Option Fault
  | srcPath, .dir cs, dstPath, root, d =>
    if env.mkdirFails dstPath then ([], d, some .exn)
    else if root && env.mkdirFails (dstPath ++ [lastName srcPath]) then
      ([Event.error ("error creating directory " ++ pathStr (dstPath ++ [lastName srcPath]))],
       d, none)
    else
      let dstP := if root then dstPath ++ [lastName srcPath] else dstPath
      if env.listFails srcPath then ([], d, some .exn)
      else runChildrenA env ign exts killed srcPath dstP cs 0 d
  | srcPath, .file sz mt, dstPath, _root, d =>
    if exts.any fun ext => pyEndswith (lastName srcPath) ext then
      ([Event.status (lastName srcPath ++ "..."), Event.progress 1], d, none)
    else if env.getsizeFails srcPath then ([], d, some .exn)
    else
      let rf := backupFile env srcPath sz mt (dstPath ++ [lastName srcPath]) d
      (rf.1, rf.2, none)

/-- Same source lines as `runChildrenU`, with child directories executed
in place (each child worker is a fresh non-root Task Unit with its own
handlers, so a child's fault does not abort the parent's loop). -/
def runChildrenA (env : Env) (ign : List FsPath) (exts : List String) (killed : Nat → Bool)
    (srcPath dstP : FsPath) : EntryList → Nat → Dst → List Event × Dst × Option Fault
  | .nil, _, d => ([], d, none)
  | .cons n c rest, i, d =>
    if killed i then ([], d, some .killed)
    else if (srcPath ++ [n]) ∈ ign then
      let r := runChildrenA env ign exts killed srcPath dstP rest (i + 1) d
      (Event.progress 1 :: Event.status n :: r.1, r.2)
    else
      match c with
      | .dir _ =>
        let rc := runAllE env ign exts killed (srcPath ++ [n]) c (dstP ++ [n]) false d
        let evs1 := rc.1 ++ finishEvents (srcPath ++ [n]) rc.2.2
        let r := runChildrenA env ign exts killed srcPath dstP rest (i + 1) rc.2.1
        (evs1 ++ r.1, r.2)
      | .file sz mt =>
        if exts.any fun ext => pyEndswith n ext then
          let r := runChildrenA env ign exts killed srcPath dstP rest (i + 1) d
          (Event.progress 1 :: Event.status ("ignoring extension: " ++ n ++ "...") :: r.1, r.2)
        else if env.getsizeFails (srcPath ++ [n]) then ([], d, some .exn)
        else
          let rf := backupFile env (srcPath ++ [n]) sz mt (dstP ++ [n]) d
          let r := runChildrenA env ign exts killed srcPath dstP rest (i + 1) rf.2
          (rf.1 ++ r.1, r.2)
end

/-- Whole-run execution of one root Task Unit and all the workers it
transitively spawns. -/
def runAll (env : Env) (ign : List FsPath) (exts : List String) (killed : Nat → Bool)
    (srcPath : FsPath) (e : Entry) (dstPath : FsPath) (root : Bool) (d : Dst) :
    List Event × Dst :=
  let r := runAllE env ign exts killed srcPath e dstPath root d
  (r.1 ++ finishEvents srcPath r.2.2, r.2.1)

/-- `MainWindow.run_backup` (`main.py` lines 577-586): one root worker per
included selection item, all with the same destination root, exclusion
lists and (for a cancellation-free run) unset kill flags. -/
def runSelection (env : Env) (ign : List FsPath) (exts : List String) :
    List (FsPath × Entry) → FsPath → Dst → List Event × Dst
  | [], _, d => ([], d)
  | (p, e) :: rest, dstRoot, d =>
    let r1 := runAll env ign exts noKill p e dstRoot true d
    let r2 := runSelection env ign exts rest dstRoot r1.2
    (r1.1 ++ r2.1, r2.2)

/-! ### Event accounting -/

/-- Total of the progress units in an event list (the quantity
`MainWindow.update_progress` accumulates into `self.progress`). -/
def progressTotal (evs : List Event) : Nat :=
  (evs.map fun e => match e with | .progress n => n | _ => 0).sum

/-- Number of byte-count (`memory_count`) events in an event list. -/
def memEvents (evs : List Event) : Nat :=
  evs.countP fun e => match e with | .memory _ => true | _ => false

/-- Number of `finished` events in an event list. -/
def finishedCount (evs : List Event) : Nat :=
  evs.countP fun e => match e with | .finished => true | _ => false

/-- Number of progress events in an event list. -/
def progEvents (evs : List Event) : Nat :=
  evs.countP fun e => match e with | .progress _ => true | _ => false

mutual
/-- The number of progress units an error-free cancellation-free whole run
emits for one entry: one per accounted file, one per excluded child
(whether file or directory), recursing into non-excluded directories. -/
def progCount (ign : List FsPath) (exts : List String) : FsPath → Entry → Nat
  | _, .file _ _ => 1
  | p, .dir cs => progCountL ign exts p cs
def progCountL (ign : List FsPath) (exts : List String) : FsPath → EntryList → Nat
  | _, .nil => 0
  | p, .cons n c rest =>
    (if (p ++ [n]) ∈ ign then 1
     else match c with
       | .dir _ => progCount ign exts (p ++ [n]) c
       | .file _ _ => 1) + progCountL ign exts p rest
end

mutual
/-- No excluded path met during traversal refers to a directory: the
condition under which the run's progress accounting agrees with
`count_total_files`. -/
def noExclDirs (ign : List FsPath) : FsPath → Entry → Bool
  | _, .file _ _ => true
  | p, .dir cs => noExclDirsL ign p cs
def noExclDirsL (ign : List FsPath) : FsPath → EntryList → Bool
  | _, .nil => true
  | p, .cons n c rest =>
    (match c with
     | .dir _ => !decide ((p ++ [n]) ∈ ign) && noExclDirs ign (p ++ [n]) c
     | .file _ _ => true) && noExclDirsL ign p rest
end

mutual
/-- The destination covers an entry: every file the run would reach (not
path-excluded, not extension-excluded) already exists at its destination
path with a modification time that is not older than the source's — the
state an error-free first run leaves behind, and the condition under which
a second run copies nothing. -/
def destCovers (ign : List FsPath) (exts : List String) (d : Dst) :
    FsPath → Entry → FsPath → Bool → Bool
  | p, .file _ mt, dP, _root =>
    if exts.any fun ext => pyEndswith (lastName p) ext then true
    else
      match lookupFile d (dP ++ [lastName p]) with
      | some x => !check_existing_file mt x.2
      | none => false
  | p, .dir cs, dP, root =>
    destCoversL ign exts d p (if root then dP ++ [lastName p] else dP) cs
def destCoversL (ign : List FsPath) (exts : List String) (d : Dst) :
    FsPath → FsPath → EntryList → Bool
  | _, _, .nil => true
  | p, dP, .cons n c rest =>
    (if (p ++ [n]) ∈ ign then true
     else match c with
       | .dir _ => destCovers ign exts d (p ++ [n]) c (dP ++ [n]) false
       | .file _ mt =>
         if exts.any fun ext => pyEndswith n ext then true
         else
           match lookupFile d (dP ++ [n]) with
           | some x => !check_existing_file mt x.2
           | none => false) && destCoversL ign exts d p dP rest
end

/-! ### The aggregator: `MainWindow` state -/

/-- The run-relevant mutable state of `MainWindow` (`main.py`): the
internal processed counter and byte total, the selection lists and their
GUI models, the extension input, the status label and the progress bar. -/
structure MainState where
  progress : Nat
  total_memory : Nat
  root_backup_dir : String
  included_paths_list : List String
  excluded_paths_list : List String
  excluded_extensions_list : List String
  label_root_backup_dir : String
  files_to_include_model : List String
  files_to_exclude_model : List String
  input_exclude_by : String
  progress_bar_value : Nat
  progress_bar_maximum : Nat
deriving DecidableEq, Repr

/-- `MainWindow.cleanup` (`main.py` lines 498-511): clears the backup
directory, the selection lists and their models, the extension input, the
status label and the progress bar's displayed value. -/
def cleanup (s : MainState) : MainState :=
  { s with
    root_backup_dir := ""
    included_paths_list := []
    excluded_paths_list := []
    excluded_extensions_list := []
    label_root_backup_dir := ""
    files_to_include_model := []
    files_to_exclude_model := []
    input_exclude_by := ""
    progress_bar_value := 0 }

/-- `MainWindow.update_progress` (`main.py` lines 425-440): add the
increment to `self.progress`, display it, and at completion
(`self.progress == self.progress_bar.maximum()`) save the log and run
`cleanup`. -/
def update_progress (s : MainState) (p : Nat) : MainState :=
  let s1 := { s with progress := s.progress + p, progress_bar_value := s.progress + p }
  if s1.progress = s1.progress_bar_maximum then cleanup s1 else s1

/-- `MainWindow.update_memory_count` (`main.py` lines 442-443). -/
def update_memory_count (s : MainState) (n : Nat) : MainState :=
  { s with total_memory := s.total_memory + n }

/-- `MainWindow.update_status` (`main.py` lines 445-450). -/
def update_status (s : MainState) (msg : String) : MainState :=
  { s with label_root_backup_dir := msg }

/-- `MainWindow.set_max_progress_value` (`main.py` lines 418-423). -/
def set_max_progress_value (s : MainState) (m : Nat) : MainState :=
  { s with progress_bar_maximum := m }

/-- The state effects of `MainWindow.run_backup` before enqueuing workers
(`main.py` lines 572-575): set the progress bar maximum from
`count_total_files` and rebuild the excluded-extension list from the GUI
input. -/
def run_backup_prep (s : MainState) (total : Nat) : MainState :=
  { s with
    progress_bar_maximum := total
    excluded_extensions_list := splitExts s.input_exclude_by }

/-- The state effect of `MainWindow.cancel_backup` (`main.py` lines
481-496) on the modeled fields: it clears the status label (the rest is
GUI enabling and thread kills). -/
def cancel_backup (s : MainState) : MainState :=
  { s with label_root_backup_dir := "" }

/-- The state effects of `MainWindow.load_settings` (`main.py` lines
246-304) on the modeled fields. -/
def load_settings_apply (s : MainState) (inc exc exts : List String) (rootDir : String) :
    MainState :=
  { s with
    included_paths_list := inc
    excluded_paths_list := exc
    excluded_extensions_list := exts
    root_backup_dir := rootDir
    files_to_include_model := inc
    files_to_exclude_model := exc
    input_exclude_by := String.intercalate "," exts }

/-- `MainWindow.add_directory` / one iteration of `add_files` (`main.py`
lines 306-334). -/
def add_included (s : MainState) (p : String) : MainState :=
  { s with
    included_paths_list := s.included_paths_list ++ [p]
    files_to_include_model := s.files_to_include_model ++ [p] }

/-- `MainWindow.exclude_directory` / one iteration of `exclude_files`
(`main.py` lines 336-364). -/
def add_excluded (s : MainState) (p : String) : MainState :=
  { s with
    excluded_paths_list := s.excluded_paths_list ++ [p]
    files_to_exclude_model := s.files_to_exclude_model ++ [p] }

/-- `MainWindow.set_backup_directory` (`main.py` lines 379-391). -/
def set_backup_directory (s : MainState) (p : String) : MainState :=
  { s with root_backup_dir := p, label_root_backup_dir := "backup location: " ++ p }

/-- The operations that mutate the modeled `MainWindow` state between and
during runs. -/
inductive MainOp where
  | updateProgress (p : Nat)
  | updateMemoryCount (n : Nat)
  | updateStatus (m : String)
  | setMaxProgressValue (m : Nat)
  | runBackupPrep (total : Nat)
  | cancelBackup
  | doCleanup
  | loadSettingsApply (inc exc exts : List String) (rootDir : String)
  | addIncluded (p : String)
  | addExcluded (p : String)
  | setBackupDirectory (p : String)

def applyMainOp : MainOp → MainState → MainState
  | .updateProgress p, s => update_progress s p
  | .updateMemoryCount n, s => update_memory_count s n
  | .updateStatus m, s => update_status s m
  | .setMaxProgressValue m, s => set_max_progress_value s m
  | .runBackupPrep total, s => run_backup_prep s total
  | .cancelBackup, s => cancel_backup s
  | .doCleanup, s => cleanup s
  | .loadSettingsApply inc exc exts rootDir, s => load_settings_apply s inc exc exts rootDir
  | .addIncluded p, s => add_included s p
  | .addExcluded p, s => add_excluded s p
  | .setBackupDirectory p, s => set_backup_directory s p

/-! ### Cancellation: workers and `kill_all` -/

/-- The cancellation-relevant state of one `BackupSelection` worker: its
per-instance `is_killed` flag. -/
structure Worker where
  is_killed : Bool
deriving DecidableEq, Repr

/-- `BackupSelection.__init__` (`backup_helpers.py` line 141): a freshly
constructed worker has `is_killed = False`. -/
def mkBackupSelection : Worker := { is_killed := false }

/-- `BackupSelection.kill` (`backup_helpers.py` lines 286-287). -/
def Worker.kill (w : Worker) : Worker := { w with is_killed := true }

/-- `MainWindow.kill_all` (`main.py` lines 474-479): issue `kill` to every
worker currently in `self.workers`. -/
def kill_all (ws : List Worker) : List Worker := ws.map Worker.kill

/-- `MainWindow.enqueue` (`main.py` lines 461-472): append the worker to
`self.workers` (and start it). -/
def enqueue (ws : List Worker) (w : Worker) : List Worker := ws ++ [w]

/-! ### Concrete instances used by witnesses and counterexamples -/

/-- A source directory `d` containing only an excluded subdirectory `e`
that holds two files. -/
def cexTree : Entry :=
  .dir (.cons "e" (.dir (.cons "f1" (.file 3 5) (.cons "f2" (.file 4 6) .nil))) .nil)

/-- A source directory with a file `a.txt` and a subdirectory `sub`
holding `b.txt` (the spec's Scenario A shape). -/
def abTree : Entry :=
  .dir (.cons "a.txt" (.file 5 10)
    (.cons "sub" (.dir (.cons "b.txt" (.file 7 20) .nil)) .nil))

/-- An environment in which `os.listdir` always raises. -/
def badListEnv : Env := { okEnv with listFails := fun _ => true }

/-- An environment in which `shutil.copy2` always raises. -/
def badCopyEnv : Env := { okEnv with copyFails := fun _ => true }

/-! ## Basic event-accounting lemmas -/

theorem progressTotal_append (a b : List Event) :
    progressTotal (a ++ b) = progressTotal a + progressTotal b := by
  simp [progressTotal]

theorem memEvents_append (a b : List Event) :
    memEvents (a ++ b) = memEvents a + memEvents b := by
  simp [memEvents]

theorem finishedCount_append (a b : List Event) :
    finishedCount (a ++ b) = finishedCount a + finishedCount b := by
  simp [finishedCount]

theorem progressTotal_finishEvents (p : FsPath) (f : Option Fault) :
    progressTotal (finishEvents p f) = 0 := by
  cases f with
  | none => rfl
  | some fl => cases fl <;> rfl

theorem memEvents_finishEvents (p : FsPath) (f : Option Fault) :
    memEvents (finishEvents p f) = 0 := by
  cases f with
  | none => rfl
  | some fl => cases fl <;> rfl

theorem finishedCount_finishEvents (p : FsPath) (f : Option Fault) :
    finishedCount (finishEvents p f) = 1 := by
  cases f with
  | none => rfl
  | some fl => cases fl <;> rfl

theorem finishEvents_split (p : FsPath) (f : Option Fault) :
    ∃ pre, finishEvents p f = pre ++ [Event.finished] ∧ finishedCount pre = 0 := by
  cases f with
  | none => exact ⟨[], rfl, rfl⟩
  | some fl =>
    cases fl with
    | killed => exact ⟨[Event.status "worker killed"], rfl, rfl⟩
    | exn => exact ⟨[Event.error ("error running backup for " ++ pathStr p)], rfl, rfl⟩

/-! ## Destination-store lemmas -/

theorem lookupFile_setFile_self (d : Dst) (p : FsPath) (sz mt : Nat) :
    lookupFile (setFile d p sz mt) p = some (sz, mt) := by
  simp [setFile, lookupFile]

theorem lookupFile_setFile_ne (d : Dst) (p : FsPath) (sz mt : Nat) (q : FsPath)
    (h : q ≠ p) : lookupFile (setFile d p sz mt) q = lookupFile d q := by
  simp [setFile, lookupFile, Ne.symm h]

/-! ## Per-file copy-decision lemmas -/

theorem progressTotal_backupFile (env : Env) (s : FsPath) (sz mt : Nat) (q : FsPath)
    (d : Dst) (h : env.copyFails q = false) :
    progressTotal (backupFile env s sz mt q d).1 = 1 := by
  cases hl : lookupFile d q with
  | none => simp [backupFile, hl, h, progressTotal]
  | some x =>
    by_cases hc : check_existing_file mt x.2 <;>
      simp [backupFile, hl, h, hc, progressTotal]

theorem memEvents_backupFile (env : Env) (s : FsPath) (sz mt : Nat) (q : FsPath) (d : Dst) :
    memEvents (backupFile env s sz mt q d).1
      = if env.copyFails q then 0
        else match lookupFile d q with
          | none => 1
          | some x => if check_existing_file mt x.2 then 1 else 0 := by
  cases hl : lookupFile d q with
  | none => by_cases hf : env.copyFails q <;> simp [backupFile, hl, hf, memEvents]
  | some x =>
    by_cases hf : env.copyFails q <;> by_cases hc : check_existing_file mt x.2 <;>
      simp [backupFile, hl, hf, hc, memEvents]

theorem finishedCount_backupFile (env : Env) (s : FsPath) (sz mt : Nat) (q : FsPath)
    (d : Dst) : finishedCount (backupFile env s sz mt q d).1 = 0 := by
  cases hl : lookupFile d q with
  | none => by_cases hf : env.copyFails q <;> simp [backupFile, hl, hf, finishedCount]
  | some x =>
    by_cases hf : env.copyFails q <;> by_cases hc : check_existing_file mt x.2 <;>
      simp [backupFile, hl, hf, hc, finishedCount]

theorem lookupFile_backupFile_ne (env : Env) (s : FsPath) (sz mt : Nat) (q : FsPath)
    (d : Dst) (r : FsPath) (h : r ≠ q) :
    lookupFile (backupFile env s sz mt q d).2 r = lookupFile d r := by
  cases hl : lookupFile d q with
  | none =>
    by_cases hf : env.copyFails q <;>
      simp [backupFile, hl, hf, lookupFile_setFile_ne _ _ _ _ _ h]
  | some x =>
    by_cases hf : env.copyFails q <;> by_cases hc : check_existing_file mt x.2 <;>
      simp [backupFile, hl, hf, hc, lookupFile_setFile_ne _ _ _ _ _ h]

theorem okEnv_errorFree : ErrorFree okEnv :=
  ⟨fun _ => rfl, fun _ => rfl, fun _ => rfl, fun _ => rfl⟩

theorem pyEndswith_empty (s : String) : pyEndswith s "" = true := by
  simp [pyEndswith]

theorem any_pyEndswith_of_empty_mem (exts : List String) (hx : "" ∈ exts) (n : String) :
    (exts.any fun ext => pyEndswith n ext) = true :=
  List.any_eq_true.2 ⟨"", hx, pyEndswith_empty n⟩

/-! ## Per-Task-Unit lemmas: no premature finished event -/

theorem finished_not_mem_backupFile (env : Env) (s : FsPath) (sz mt : Nat) (q : FsPath)
    (d : Dst) : Event.finished ∉ (backupFile env s sz mt q d).1 := by
  cases hl : lookupFile d q with
  | none => by_cases hf : env.copyFails q <;> simp [backupFile, hl, hf]
  | some x =>
    by_cases hf : env.copyFails q <;> by_cases hc : check_existing_file mt x.2 <;>
      simp [backupFile, hl, hf, hc]

theorem finished_not_mem_runChildrenU (env : Env) (ign : List FsPath) (exts : List String)
    (killed : Nat → Bool) (p dP : FsPath) :
    ∀ (cs : EntryList) (i : Nat) (d : Dst),
    Event.finished ∉ (runChildrenU env ign exts killed p dP cs i d).1
  | .nil, i, d => by simp [runChildrenU]
  | .cons n c rest, i, d => by
    by_cases hk : killed i
    · simp [runChildrenU, hk]
    · by_cases hi : (p ++ [n]) ∈ ign
      · simp [runChildrenU, hk, hi,
          finished_not_mem_runChildrenU env ign exts killed p dP rest (i + 1) d]
      · cases c with
        | dir cs' =>
          simp [runChildrenU, hk, hi,
            finished_not_mem_runChildrenU env ign exts killed p dP rest (i + 1) d]
        | file sz mt =>
          by_cases hx : (exts.any fun ext => pyEndswith n ext)
          · simp [runChildrenU, hk, hi, hx,
              finished_not_mem_runChildrenU env ign exts killed p dP rest (i + 1) d]
          · by_cases hg : env.getsizeFails (p ++ [n])
            · simp [runChildrenU, hk, hi, hx, hg]
            · have hb := finished_not_mem_backupFile env (p ++ [n]) sz mt (dP ++ [n]) d
              have hr := finished_not_mem_runChildrenU env ign exts killed p dP rest (i + 1)
                (backupFile env (p ++ [n]) sz mt (dP ++ [n]) d).2
              simp [runChildrenU, hk, hi, hx, hg, hb, hr]

theorem finished_not_mem_runBodyU (env : Env) (ign : List FsPath) (exts : List String)
    (killed : Nat → Bool) (p : FsPath) (e : Entry) (dP : FsPath) (root : Bool) (d : Dst) :
    Event.finished ∉ (runBodyU env ign exts killed p e dP root d).1 := by
  cases e with
  | dir cs =>
    by_cases h1 : env.mkdirFails dP
    · simp [runBodyU, h1]
    · by_cases h2 : (root && env.mkdirFails (dP ++ [lastName p]))
      · simp [runBodyU, h1, h2]
      · by_cases h3 : env.listFails p
        · simp [runBodyU, h1, h2, h3]
        · simp [runBodyU, h1, h2, h3, finished_not_mem_runChildrenU]
  | file sz mt =>
    by_cases hx : (exts.any fun ext => pyEndswith (lastName p) ext)
    · simp [runBodyU, hx]
    · by_cases hg : env.getsizeFails p
      · simp [runBodyU, hx, hg]
      · simp [runBodyU, hx, hg, finished_not_mem_backupFile]

theorem finishedCount_eq_zero_of_not_mem (evs : List Event)
    (h : Event.finished ∉ evs) : finishedCount evs = 0 := by
  rw [finishedCount, List.countP_eq_zero]
  intro a ha
  cases a <;> simp_all

/-- C3.  Every Task Unit — one execution of `BackupSelection.run`, on every
path (success, skip, exclusion, structured error, cancellation) — emits the
`finished` event exactly once, after all its other events: its event list
is some finished-free prefix followed by the single terminal `finished`. -/
theorem C3_terminal_event_exactly_once (env : Env) (ign : List FsPath) (exts : List String)
    (killed : Nat → Bool) (p : FsPath) (e : Entry) (dP : FsPath) (root : Bool) (d : Dst) :
    ∃ evs, (runUnit env ign exts killed p e dP root d).1 = evs ++ [Event.finished]
      ∧ finishedCount evs = 0 := by
  obtain ⟨pre, hpre, hcnt⟩ :=
    finishEvents_split p (runBodyU env ign exts killed p e dP root d).2.2
  refine ⟨(runBodyU env ign exts killed p e dP root d).1 ++ pre, ?_, ?_⟩
  · simp [runUnit, hpre]
  · simp [finishedCount_append, hcnt,
      finishedCount_eq_zero_of_not_mem _ (finished_not_mem_runBodyU env ign exts killed p e dP root d)]

theorem getLast?_append_singleton {A : Type} (l : List A) (a : A) :
    (l ++ [a]).getLast? = some a := by
  induction l with
  | nil => rfl
  | cons x xs ih =>
    rw [List.cons_append, List.getLast?_cons, ih]
    cases xs <;> simp

/-- C7.  `BackupSelection.run` never lets an exception propagate to its
caller: `runUnit` is a total function into an event list and a destination
store; whenever the body of the `try:` raises — a filesystem fault from an
individual operation (`Fault.exn`) or the cancellation exception
(`Fault.killed`) — the handlers convert it into a structured error event,
respectively a status event, and the terminal `finished` event is still
emitted, last. -/
theorem C7_no_exception_escapes (env : Env) (ign : List FsPath) (exts : List String)
    (killed : Nat → Bool) (p : FsPath) (e : Entry) (dP : FsPath) (root : Bool) (d : Dst) :
    (runUnit env ign exts killed p e dP root d).1.getLast? = some Event.finished
    ∧ (∀ evs d', runBodyU env ign exts killed p e dP root d = (evs, d', some Fault.exn) →
        runUnit env ign exts killed p e dP root d
          = (evs ++ [Event.error ("error running backup for " ++ pathStr p),
              Event.finished], d'))
    ∧ (∀ evs d', runBodyU env ign exts killed p e dP root d = (evs, d', some Fault.killed) →
        runUnit env ign exts killed p e dP root d
          = (evs ++ [Event.status "worker killed", Event.finished], d')) := by
  refine ⟨?_, ?_, ?_⟩
  · obtain ⟨pre, hpre, _⟩ :=
      finishEvents_split p (runBodyU env ign exts killed p e dP root d).2.2
    have : (runUnit env ign exts killed p e dP root d).1
        = ((runBodyU env ign exts killed p e dP root d).1 ++ pre) ++ [Event.finished] := by
      simp [runUnit, hpre]
    rw [this, getLast?_append_singleton]
  · intro evs d' h
    simp [runUnit, h, finishEvents]
  · intro evs d' h
    simp [runUnit, h, finishEvents]

/-- C2.  For a file whose destination file already exists, the overwrite
law of lines 201-215 / 238-251 of `backup_helpers.py`: exactly one progress
unit is emitted whether or not an overwrite occurred, and (when the copy
operation itself does not fail) the destination is overwritten with the
source's content and modification time if and only if the source's
modification time is strictly greater than the destination's. -/
theorem C2_overwrite_law (env : Env) (srcFile : FsPath) (sz mt : Nat) (dstFile : FsPath)
    (d : Dst) (x : Nat × Nat) (hx : lookupFile d dstFile = some x) :
    progressTotal (backupFile env srcFile sz mt dstFile d).1 = 1
    ∧ progEvents (backupFile env srcFile sz mt dstFile d).1 = 1
    ∧ (env.copyFails dstFile = false →
        (mt > x.2 → (backupFile env srcFile sz mt dstFile d).2 = setFile d dstFile sz mt)
        ∧ (¬ mt > x.2 → (backupFile env srcFile sz mt dstFile d).2 = d)) := by
  by_cases hc : mt > x.2 <;> by_cases hf : env.copyFails dstFile <;>
    simp [backupFile, hx, check_existing_file, hc, hf, progressTotal, progEvents]

/-- C4.  Copy-failure asymmetry of `backup_helpers.py` lines 200-228:
when the destination file is absent and the copy fails, the Task Unit emits
a structured error and no progress unit for the file; when the destination
file is present, the source strictly newer and the overwrite copy fails,
it emits a structured error and still emits the progress unit; and a
byte-count event is emitted exactly when a copy was attempted and
succeeded. -/
theorem C4_copy_failure_asymmetry (env : Env) (srcFile : FsPath) (sz mt : Nat)
    (dstFile : FsPath) (d : Dst) :
    (lookupFile d dstFile = none → env.copyFails dstFile = true →
      backupFile env srcFile sz mt dstFile d
        = ([Event.status (lastName srcFile ++ "..."),
            Event.error ("error copying new file " ++ pathStr srcFile)], d))
    ∧ (∀ x, lookupFile d dstFile = some x → mt > x.2 → env.copyFails dstFile = true →
      backupFile env srcFile sz mt dstFile d
        = ([Event.status (lastName srcFile ++ "..."),
            Event.error ("error overwriting file " ++ pathStr srcFile),
            Event.progress 1], d))
    ∧ (memEvents (backupFile env srcFile sz mt dstFile d).1
        = if env.copyFails dstFile then 0
          else match lookupFile d dstFile with
            | none => 1
            | some x => if check_existing_file mt x.2 then 1 else 0) := by
  refine ⟨?_, ?_, memEvents_backupFile env srcFile sz mt dstFile d⟩
  · intro h hf
    simp [backupFile, h, hf]
  · intro x hx hc hf
    simp [backupFile, hx, check_existing_file, hc, hf]

/-- C5.  A file whose name matches an excluded extension suffix is never
copied and contributes exactly one progress unit: as a root-level
single-file selection (`backup_helpers.py` lines 230-236) the Task Unit
emits only the status, the one progress unit and the terminal event,
leaving the destination untouched; as a child met during directory
traversal (lines 190-199) the loop emits the one progress unit and the
ignore status and continues with the remaining children on an unchanged
destination. -/
theorem C5_extension_exclusion (env : Env) (ign : List FsPath) (exts : List String)
    (killed : Nat → Bool) :
    (∀ (srcPath dstPath : FsPath) (sz mt : Nat) (root : Bool) (d : Dst),
      (exts.any fun ext => pyEndswith (lastName srcPath) ext) = true →
      runUnit env ign exts killed srcPath (.file sz mt) dstPath root d
        = ([Event.status (lastName srcPath ++ "..."), Event.progress 1, Event.finished], d))
    ∧ (∀ (srcPath dstP : FsPath) (n : String) (sz mt : Nat) (rest : EntryList) (i : Nat)
        (d : Dst),
      killed i = false → (srcPath ++ [n]) ∉ ign →
      (exts.any fun ext => pyEndswith n ext) = true →
      runChildrenU env ign exts killed srcPath dstP (.cons n (.file sz mt) rest) i d
        = (Event.progress 1 :: Event.status ("ignoring extension: " ++ n ++ "...") ::
            (runChildrenU env ign exts killed srcPath dstP rest (i + 1) d).1,
           (runChildrenU env ign exts killed srcPath dstP rest (i + 1) d).2)) := by
  constructor
  · intro srcPath dstPath sz mt root d hx
    simp [runUnit, runBodyU, hx, finishEvents]
  · intro srcPath dstP n sz mt rest i d hk hi hx
    simp [runChildrenU, hk, hi, hx]

/-- C10.  `MainWindow.cleanup` clears the selection lists and their GUI
models, the excluded-extension list and input, the backup-directory fields
and the progress bar's displayed value, but leaves the internal processed
counter (`self.progress`) and the accumulated byte total
(`self.total_memory`) unchanged; and no modeled `MainWindow` operation
ever decreases either counter, so a subsequent run starts from the
previous run's accumulated counts. -/
theorem C10_cleanup_preserves_counters :
    (∀ s : MainState,
      (cleanup s).progress = s.progress
      ∧ (cleanup s).total_memory = s.total_memory
      ∧ (cleanup s).included_paths_list = []
      ∧ (cleanup s).excluded_paths_list = []
      ∧ (cleanup s).excluded_extensions_list = []
      ∧ (cleanup s).files_to_include_model = []
      ∧ (cleanup s).files_to_exclude_model = []
      ∧ (cleanup s).input_exclude_by = ""
      ∧ (cleanup s).progress_bar_value = 0)
    ∧ (∀ (op : MainOp) (s : MainState),
      s.progress ≤ (applyMainOp op s).progress
      ∧ s.total_memory ≤ (applyMainOp op s).total_memory) := by
  constructor
  · intro s
    simp [cleanup]
  · intro op s
    cases op with
    | updateProgress p =>
      simp only [applyMainOp, update_progress]
      split <;> simp [cleanup]
    | _ =>
      simp [applyMainOp, update_memory_count, update_status,
        set_max_progress_value, run_backup_prep, cancel_backup, cleanup,
        load_settings_apply, add_included, add_excluded, set_backup_directory]

/-- C6 counterexample: a `kill_all` cancellation request does not reach a
Task Unit enqueued after the request — the worker appended afterwards still
has `is_killed = False`, refuting the claim that the flag reads as set in
every Task Unit created for the run, including those spawned after the
request by a not-yet-cancelled parent. -/
theorem C6_counterexample :
    ¬ (∀ w ∈ enqueue (kill_all [mkBackupSelection]) mkBackupSelection,
        w.is_killed = true) := by
  decide

/-- C6 (amended).  `kill_all` sets the per-instance `is_killed` flag of
every worker tracked in `self.workers` at the moment of the request, and a
worker whose flag reads set begins no work on any child entry: its `run`
emits only the killed status and the terminal event, leaving the
destination untouched.  But the guarantee covers only already-tracked
workers: a freshly constructed `BackupSelection` starts with
`is_killed = False`, so a worker enqueued after the request is not
cancelled by it. -/
theorem C6_kill_marks_tracked_workers :
    (∀ (ws : List Worker), ∀ w ∈ kill_all ws, w.is_killed = true)
    ∧ mkBackupSelection.is_killed = false
    ∧ (∀ (env : Env) (ign : List FsPath) (exts : List String) (p dP : FsPath)
        (root : Bool) (d : Dst) (n : String) (c : Entry) (rest : EntryList),
      env.mkdirFails dP = false → env.mkdirFails (dP ++ [lastName p]) = false →
      env.listFails p = false →
      runUnit env ign exts (fun _ => true) p (.dir (.cons n c rest)) dP root d
        = ([Event.status "worker killed", Event.finished], d)) := by
  refine ⟨?_, rfl, ?_⟩
  · intro ws w hw
    rcases List.mem_map.1 hw with ⟨v, _, rfl⟩
    rfl
  · intro env ign exts p dP root d n c rest h1 h2 h3
    simp [runUnit, runBodyU, h1, h2, h3, runChildrenU, finishEvents]

/-! ## Whole-run progress accounting (error-free, cancellation-free) -/

mutual
theorem progA_entry (env : Env) (hE : ErrorFree env) (ign : List FsPath)
    (exts : List String) :
    ∀ (e : Entry) (p dP : FsPath) (root : Bool) (d : Dst),
    progressTotal (runAllE env ign exts noKill p e dP root d).1 = progCount ign exts p e
  | .file sz mt, p, dP, root, d => by
    by_cases hx : (exts.any fun ext => pyEndswith (lastName p) ext)
    · simp [runAllE, hx, progressTotal, progCount]
    · simp [runAllE, hx, hE.2.2.1 p, progCount,
        progressTotal_backupFile env p sz mt (dP ++ [lastName p]) d (hE.2.2.2 _)]
  | .dir cs, p, dP, root, d => by
    simp only [runAllE, hE.1 dP, hE.1 (dP ++ [lastName p]), hE.2.1 p,
      Bool.and_false, Bool.false_eq_true, if_false, progCount]
    exact progA_children env hE ign exts cs p _ 0 d

theorem progA_children (env : Env) (hE : ErrorFree env) (ign : List FsPath)
    (exts : List String) :
    ∀ (cs : EntryList) (p dP : FsPath) (i : Nat) (d : Dst),
    progressTotal (runChildrenA env ign exts noKill p dP cs i d).1 = progCountL ign exts p cs
  | .nil, p, dP, i, d => by simp [runChildrenA, progressTotal, progCountL]
  | .cons n c rest, p, dP, i, d => by
    by_cases hi : (p ++ [n]) ∈ ign
    · have ih := progA_children env hE ign exts rest p dP (i + 1) d
      simp [runChildrenA, noKill, hi, progressTotal, progCountL] at ih ⊢
      omega
    · cases c with
      | dir cs' =>
        have ihc := progA_entry env hE ign exts (.dir cs') (p ++ [n]) (dP ++ [n]) false d
        have ih := progA_children env hE ign exts rest p dP (i + 1)
          (runAllE env ign exts noKill (p ++ [n]) (.dir cs') (dP ++ [n]) false d).2.1
        simp only [runChildrenA, noKill, hi, if_false, Bool.false_eq_true,
          progressTotal_append, progressTotal_finishEvents, progCountL]
        simp [hi, ihc, ih]
      | file sz mt =>
        by_cases hx : (exts.any fun ext => pyEndswith n ext)
        · have ih := progA_children env hE ign exts rest p dP (i + 1) d
          simp [runChildrenA, noKill, hi, hx, progressTotal, progCountL] at ih ⊢
          omega
        · have hb := progressTotal_backupFile env (p ++ [n]) sz mt (dP ++ [n]) d
            (hE.2.2.2 _)
          have ih := progA_children env hE ign exts rest p dP (i + 1)
            (backupFile env (p ++ [n]) sz mt (dP ++ [n]) d).2
          simp only [runChildrenA, noKill, hi, hx, hE.2.2.1 (p ++ [n]),
            Bool.false_eq_true, if_false, progressTotal_append, progCountL]
          simp [hi, hb, ih]
end

theorem progressTotal_runAll (env : Env) (hE : ErrorFree env) (ign : List FsPath)
    (exts : List String) (p : FsPath) (e : Entry) (dP : FsPath) (root : Bool) (d : Dst) :
    progressTotal (runAll env ign exts noKill p e dP root d).1 = progCount ign exts p e := by
  simp [runAll, progressTotal_append, progressTotal_finishEvents,
    progA_entry env hE ign exts e p dP root d]

theorem progressTotal_runSelection (env : Env) (hE : ErrorFree env) (ign : List FsPath)
    (exts : List String) :
    ∀ (roots : List (FsPath × Entry)) (dstRoot : FsPath) (d : Dst),
    progressTotal (runSelection env ign exts roots dstRoot d).1
      = (roots.map fun r => progCount ign exts r.1 r.2).sum
  | [], dstRoot, d => by simp [runSelection, progressTotal]
  | (p, e) :: rest, dstRoot, d => by
    have ih := progressTotal_runSelection env hE ign exts rest dstRoot
      (runAll env ign exts noKill p e dstRoot true d).2
    simp [runSelection, progressTotal_append, ih,
      progressTotal_runAll env hE ign exts p e dstRoot true d]

mutual
theorem progCount_eq_walkCount (ign : List FsPath) (exts : List String) :
    ∀ (e : Entry) (p : FsPath), noExclDirs ign p e = true →
    progCount ign exts p e = walkCount e
  | .file _ _, p, _ => rfl
  | .dir cs, p, h => by
    simp only [noExclDirs] at h
    simp only [progCount, walkCount]
    exact progCountL_eq_walkCountL ign exts cs p h

theorem progCountL_eq_walkCountL (ign : List FsPath) (exts : List String) :
    ∀ (cs : EntryList) (p : FsPath), noExclDirsL ign p cs = true →
    progCountL ign exts p cs = walkCountL cs
  | .nil, p, _ => rfl
  | .cons n c rest, p, h => by
    simp only [noExclDirsL, Bool.and_eq_true] at h
    have ih := progCountL_eq_walkCountL ign exts rest p h.2
    cases c with
    | dir cs' =>
      simp only [Bool.and_eq_true, Bool.not_eq_true', decide_eq_false_iff_not] at h
      have ihc := progCount_eq_walkCount ign exts (.dir cs') (p ++ [n]) h.1.2
      simp [progCountL, walkCountL, h.1.1, ihc, ih]
    | file sz mt =>
      by_cases hi : (p ++ [n]) ∈ ign <;>
        simp [progCountL, walkCountL, walkCount, hi, ih]
end

/-! ## Write-frame lemmas: a run only touches destination paths under its
destination directory -/

theorem append_singleton_prefix_inj {a : List String} {x y : String} {q : List String}
    (h1 : (a ++ [x]) <+: q) (h2 : (a ++ [y]) <+: q) : x = y := by
  obtain ⟨t1, ht1⟩ := h1
  obtain ⟨t2, ht2⟩ := h2
  have h3 : (a ++ [x]) ++ t1 = (a ++ [y]) ++ t2 := ht1.trans ht2.symm
  have hlen : (a ++ [x]).length = (a ++ [y]).length := by simp
  have h4 := (List.append_inj h3 hlen).1
  have h5 := List.append_cancel_left h4
  simpa using h5

theorem prefix_trans_append {dP dQ q : List String} (h1 : dP <+: dQ) (h2 : dQ <+: q) :
    dP <+: q := h1.trans h2

mutual
theorem frame_entry (env : Env) (ign : List FsPath) (exts : List String)
    (killed : Nat → Bool) :
    ∀ (e : Entry) (p dP : FsPath) (root : Bool) (d : Dst) (q : FsPath),
    ¬ (dP <+: q) →
    lookupFile (runAllE env ign exts killed p e dP root d).2.1 q = lookupFile d q
  | .file sz mt, p, dP, root, d, q, hq => by
    by_cases hx : (exts.any fun ext => pyEndswith (lastName p) ext)
    · simp [runAllE, hx]
    · by_cases hg : env.getsizeFails p
      · simp [runAllE, hx, hg]
      · have hne : q ≠ dP ++ [lastName p] := by
          intro h
          exact hq (h ▸ List.prefix_append dP [lastName p])
        simp [runAllE, hx, hg,
          lookupFile_backupFile_ne env p sz mt (dP ++ [lastName p]) d q hne]
  | .dir cs, p, dP, root, d, q, hq => by
    by_cases h1 : env.mkdirFails dP
    · simp [runAllE, h1]
    · by_cases h2 : (root && env.mkdirFails (dP ++ [lastName p]))
      · simp [runAllE, h1, h2]
      · by_cases h3 : env.listFails p
        · simp [runAllE, h1, h2, h3]
        · have hq' : ∀ n, n ∈ namesE cs →
              ¬ ((if root then dP ++ [lastName p] else dP) ++ [n]) <+: q := by
            intro n _ hpre
            apply hq
            refine prefix_trans_append ?_ hpre
            refine prefix_trans_append ?_ (List.prefix_append _ [n])
            cases root with
            | true => exact List.prefix_append dP [lastName p]
            | false => exact List.prefix_refl dP
          simp only [runAllE, h1, h2, h3, Bool.false_eq_true, if_false]
          exact frame_children env ign exts killed cs p _ 0 d q hq'

theorem frame_children (env : Env) (ign : List FsPath) (exts : List String)
    (killed : Nat → Bool) :
    ∀ (cs : EntryList) (p dP : FsPath) (i : Nat) (d : Dst) (q : FsPath),
    (∀ n, n ∈ namesE cs → ¬ ((dP ++ [n]) <+: q)) →
    lookupFile (runChildrenA env ign exts killed p dP cs i d).2.1 q = lookupFile d q
  | .nil, p, dP, i, d, q, _ => by simp [runChildrenA]
  | .cons n c rest, p, dP, i, d, q, hq => by
    have hqr : ∀ m, m ∈ namesE rest → ¬ ((dP ++ [m]) <+: q) := by
      intro m hm
      exact hq m (by simp [namesE, hm])
    have hqn : ¬ ((dP ++ [n]) <+: q) := hq n (by simp [namesE])
    by_cases hk : killed i
    · simp [runChildrenA, hk]
    · by_cases hi : (p ++ [n]) ∈ ign
      · simp [runChildrenA, hk, hi,
          frame_children env ign exts killed rest p dP (i + 1) d q hqr]
      · cases c with
        | dir cs' =>
          have h1 := frame_entry env ign exts killed (.dir cs') (p ++ [n]) (dP ++ [n])
            false d q hqn
          have h2 := frame_children env ign exts killed rest p dP (i + 1)
            (runAllE env ign exts killed (p ++ [n]) (.dir cs') (dP ++ [n]) false d).2.1 q hqr
          simp [runChildrenA, hk, hi, h2, h1]
        | file sz mt =>
          by_cases hx : (exts.any fun ext => pyEndswith n ext)
          · simp [runChildrenA, hk, hi, hx,
              frame_children env ign exts killed rest p dP (i + 1) d q hqr]
          · by_cases hg : env.getsizeFails (p ++ [n])
            · simp [runChildrenA, hk, hi, hx, hg]
            · have hne : q ≠ dP ++ [n] := by
                intro h
                exact hqn (h ▸ List.prefix_refl (dP ++ [n]))
              have h1 := lookupFile_backupFile_ne env (p ++ [n]) sz mt (dP ++ [n]) d q hne
              have h2 := frame_children env ign exts killed rest p dP (i + 1)
                (backupFile env (p ++ [n]) sz mt (dP ++ [n]) d).2 q hqr
              simp [runChildrenA, hk, hi, hx, hg, h2, h1]
end

/-! ## Coverage is determined by the lookups under the destination prefix -/

mutual
theorem presCovers_entry (ign : List FsPath) (exts : List String) :
    ∀ (e : Entry) (p dP : FsPath) (root : Bool) (d1 d2 : Dst),
    (∀ q, dP <+: q → lookupFile d1 q = lookupFile d2 q) →
    destCovers ign exts d1 p e dP root = destCovers ign exts d2 p e dP root
  | .file sz mt, p, dP, root, d1, d2, h => by
    simp only [destCovers]
    rw [h (dP ++ [lastName p]) (List.prefix_append dP [lastName p])]
  | .dir cs, p, dP, root, d1, d2, h => by
    simp only [destCovers]
    apply presCovers_children ign exts cs p _ d1 d2
    intro q hq
    refine h q (prefix_trans_append ?_ hq)
    cases root with
    | true => exact List.prefix_append dP [lastName p]
    | false => exact List.prefix_refl dP

theorem presCovers_children (ign : List FsPath) (exts : List String) :
    ∀ (cs : EntryList) (p dP : FsPath) (d1 d2 : Dst),
    (∀ q, dP <+: q → lookupFile d1 q = lookupFile d2 q) →
    destCoversL ign exts d1 p dP cs = destCoversL ign exts d2 p dP cs
  | .nil, _, _, _, _, _ => rfl
  | .cons n c rest, p, dP, d1, d2, h => by
    simp only [destCoversL]
    have hrest := presCovers_children ign exts rest p dP d1 d2 h
    rw [hrest]
    congr 1
    by_cases hi : (p ++ [n]) ∈ ign
    · simp [hi]
    · cases c with
      | dir cs' =>
        simp only [hi, if_false]
        exact presCovers_entry ign exts (.dir cs') (p ++ [n]) (dP ++ [n]) false d1 d2
          (fun q hq => h q (prefix_trans_append (List.prefix_append dP [n]) hq))
      | file sz mt =>
        by_cases hx : (exts.any fun ext => pyEndswith n ext)
        · simp [hi, hx]
        · simp only [hi, hx, if_false, Bool.false_eq_true]
          rw [h (dP ++ [n]) (List.prefix_append dP [n])]
end

theorem memEvents_cons_progress (n : Nat) (l : List Event) :
    memEvents (Event.progress n :: l) = memEvents l := by
  simp [memEvents]

theorem memEvents_cons_status (s : String) (l : List Event) :
    memEvents (Event.status s :: l) = memEvents l := by
  simp [memEvents]

/-! ## An error-free run leaves every reachable file covered at its
destination -/

mutual
theorem covers_after_run_entry (env : Env) (hE : ErrorFree env) (ign : List FsPath)
    (exts : List String) :
    ∀ (e : Entry) (p dP : FsPath) (root : Bool) (d : Dst), wfEntry e = true →
    destCovers ign exts (runAllE env ign exts noKill p e dP root d).2.1 p e dP root = true
  | .file sz mt, p, dP, root, d, _ => by
    by_cases hx : (exts.any fun ext => pyEndswith (lastName p) ext)
    · simp [runAllE, destCovers, hx]
    · simp only [runAllE, hx, hE.2.2.1 p, Bool.false_eq_true, if_false, destCovers]
      cases hl : lookupFile d (dP ++ [lastName p]) with
      | none =>
        simp [backupFile, hl, hE.2.2.2 (dP ++ [lastName p]), lookupFile_setFile_self,
          check_existing_file]
      | some x =>
        by_cases hc : mt > x.2
        · simp [backupFile, check_existing_file, hl, hc,
            hE.2.2.2 (dP ++ [lastName p]), lookupFile_setFile_self]
        · simp [backupFile, check_existing_file, hl, hc]
  | .dir cs, p, dP, root, d, hwf => by
    simp only [wfEntry, Bool.and_eq_true, decide_eq_true_eq] at hwf
    simp only [runAllE, hE.1 dP, hE.1 (dP ++ [lastName p]), hE.2.1 p, Bool.and_false,
      Bool.false_eq_true, if_false, destCovers]
    exact covers_after_run_children env hE ign exts cs p _ 0 d hwf.2 hwf.1

theorem covers_after_run_children (env : Env) (hE : ErrorFree env) (ign : List FsPath)
    (exts : List String) :
    ∀ (cs : EntryList) (p dP : FsPath) (i : Nat) (d : Dst),
    wfEntryList cs = true → (namesE cs).Nodup →
    destCoversL ign exts (runChildrenA env ign exts noKill p dP cs i d).2.1 p dP cs = true
  | .nil, _, _, _, _, _, _ => rfl
  | .cons n c rest, p, dP, i, d, hwf, hnd => by
    simp only [wfEntryList, Bool.and_eq_true] at hwf
    rw [namesE, List.nodup_cons] at hnd
    by_cases hi : (p ++ [n]) ∈ ign
    · simp only [runChildrenA, noKill, Bool.false_eq_true, if_false, hi, if_true,
        destCoversL, Bool.true_and]
      exact covers_after_run_children env hE ign exts rest p dP (i + 1) d hwf.2 hnd.2
    · cases c with
      | dir cs' =>
        have hcov1 := covers_after_run_entry env hE ign exts (.dir cs') (p ++ [n])
          (dP ++ [n]) false d hwf.1
        have hrest := covers_after_run_children env hE ign exts rest p dP (i + 1)
          (runAllE env ign exts noKill (p ++ [n]) (.dir cs') (dP ++ [n]) false d).2.1
          hwf.2 hnd.2
        have hframe : ∀ q, (dP ++ [n]) <+: q →
            lookupFile (runChildrenA env ign exts noKill p dP rest (i + 1)
              (runAllE env ign exts noKill (p ++ [n]) (.dir cs') (dP ++ [n]) false d).2.1).2.1 q
            = lookupFile
                (runAllE env ign exts noKill (p ++ [n]) (.dir cs') (dP ++ [n]) false d).2.1 q := by
          intro q hq
          apply frame_children
          intro m hm hpre
          exact hnd.1 ((append_singleton_prefix_inj hpre hq) ▸ hm)
        have hpres := presCovers_entry ign exts (.dir cs') (p ++ [n]) (dP ++ [n]) false
          _ _ hframe
        simp only [runChildrenA, noKill, Bool.false_eq_true, if_false, hi, destCoversL,
          Bool.and_eq_true]
        exact ⟨hpres.trans hcov1, hrest⟩
      | file sz mt =>
        by_cases hx : (exts.any fun ext => pyEndswith n ext)
        · simp only [runChildrenA, noKill, Bool.false_eq_true, if_false, hi, hx, if_true,
            destCoversL, Bool.and_eq_true]
          exact ⟨by simp [hi, hx], covers_after_run_children env hE ign exts rest p dP
            (i + 1) d hwf.2 hnd.2⟩
        · have hrest := covers_after_run_children env hE ign exts rest p dP (i + 1)
            (backupFile env (p ++ [n]) sz mt (dP ++ [n]) d).2 hwf.2 hnd.2
          have hframe :
              lookupFile (runChildrenA env ign exts noKill p dP rest (i + 1)
                (backupFile env (p ++ [n]) sz mt (dP ++ [n]) d).2).2.1 (dP ++ [n])
              = lookupFile (backupFile env (p ++ [n]) sz mt (dP ++ [n]) d).2 (dP ++ [n]) := by
            apply frame_children
            intro m hm hpre
            exact hnd.1
              ((append_singleton_prefix_inj hpre (List.prefix_refl (dP ++ [n]))) ▸ hm)
          have hhead :
              (match lookupFile (backupFile env (p ++ [n]) sz mt (dP ++ [n]) d).2 (dP ++ [n]) with
                | some x => !check_existing_file mt x.2
                | none => false) = true := by
            cases hl : lookupFile d (dP ++ [n]) with
            | none =>
              simp [backupFile, hl, hE.2.2.2 (dP ++ [n]), lookupFile_setFile_self,
                check_existing_file]
            | some x =>
              by_cases hc : mt > x.2
              · simp [backupFile, check_existing_file, hl, hc, hE.2.2.2 (dP ++ [n]),
                  lookupFile_setFile_self]
              · simp [backupFile, check_existing_file, hl, hc]
          simp only [runChildrenA, noKill, Bool.false_eq_true, if_false, hi, hx,
            hE.2.2.1 (p ++ [n]), destCoversL, Bool.and_eq_true]
          refine ⟨?_, hrest⟩
          rw [hframe]
          exact hhead
end

/-! ## A covered run copies nothing -/

mutual
theorem noop_entry (env : Env) (hE : ErrorFree env) (ign : List FsPath)
    (exts : List String) :
    ∀ (e : Entry) (p dP : FsPath) (root : Bool) (d : Dst),
    destCovers ign exts d p e dP root = true →
    (runAllE env ign exts noKill p e dP root d).2.1 = d
    ∧ memEvents (runAllE env ign exts noKill p e dP root d).1 = 0
  | .file sz mt, p, dP, root, d, hcov => by
    by_cases hx : (exts.any fun ext => pyEndswith (lastName p) ext)
    · simp [runAllE, hx, memEvents]
    · simp only [destCovers, hx, Bool.false_eq_true, if_false] at hcov
      cases hl : lookupFile d (dP ++ [lastName p]) with
      | none => rw [hl] at hcov; exact absurd hcov (by simp)
      | some x =>
        rw [hl] at hcov
        have hc : ¬ mt > x.2 := by
          simpa [check_existing_file] using hcov
        simp [runAllE, hx, hE.2.2.1 p, backupFile, check_existing_file, hl, hc, memEvents]
  | .dir cs, p, dP, root, d, hcov => by
    simp only [destCovers] at hcov
    simp only [runAllE, hE.1 dP, hE.1 (dP ++ [lastName p]), hE.2.1 p, Bool.and_false,
      Bool.false_eq_true, if_false]
    exact noop_children env hE ign exts cs p _ 0 d hcov

theorem noop_children (env : Env) (hE : ErrorFree env) (ign : List FsPath)
    (exts : List String) :
    ∀ (cs : EntryList) (p dP : FsPath) (i : Nat) (d : Dst),
    destCoversL ign exts d p dP cs = true →
    (runChildrenA env ign exts noKill p dP cs i d).2.1 = d
    ∧ memEvents (runChildrenA env ign exts noKill p dP cs i d).1 = 0
  | .nil, p, dP, i, d, _ => by simp [runChildrenA, memEvents]
  | .cons n c rest, p, dP, i, d, hcov => by
    simp only [destCoversL, Bool.and_eq_true] at hcov
    by_cases hi : (p ++ [n]) ∈ ign
    · have ih := noop_children env hE ign exts rest p dP (i + 1) d hcov.2
      simp only [runChildrenA, noKill, Bool.false_eq_true, if_false, hi, if_true]
      exact ⟨ih.1, by rw [memEvents_cons_progress, memEvents_cons_status]; exact ih.2⟩
    · cases c with
      | dir cs' =>
        have hhead : destCovers ign exts d (p ++ [n]) (.dir cs') (dP ++ [n]) false = true := by
          simpa [hi] using hcov.1
        have ihc := noop_entry env hE ign exts (.dir cs') (p ++ [n]) (dP ++ [n]) false d hhead
        simp only [runChildrenA, noKill, Bool.false_eq_true, if_false, hi, ihc.1]
        have ih := noop_children env hE ign exts rest p dP (i + 1) d hcov.2
        refine ⟨ih.1, ?_⟩
        simp [memEvents_append, memEvents_finishEvents, ihc.2, ih.2]
      | file sz mt =>
        by_cases hx : (exts.any fun ext => pyEndswith n ext)
        · have ih := noop_children env hE ign exts rest p dP (i + 1) d hcov.2
          simp only [runChildrenA, noKill, Bool.false_eq_true, if_false, hi, hx, if_true]
          exact ⟨ih.1, by rw [memEvents_cons_progress, memEvents_cons_status]; exact ih.2⟩
        · have hhead := hcov.1
          simp only [hi, hx, Bool.false_eq_true, if_false] at hhead
          have hskip : backupFile env (p ++ [n]) sz mt (dP ++ [n]) d = ([Event.progress 1], d) := by
            cases hl : lookupFile d (dP ++ [n]) with
            | none => rw [hl] at hhead; exact absurd hhead (by simp)
            | some x =>
              rw [hl] at hhead
              have hc : ¬ mt > x.2 := by
                simpa [check_existing_file] using hhead
              simp [backupFile, check_existing_file, hl, hc]
          have ih := noop_children env hE ign exts rest p dP (i + 1) d hcov.2
          simp only [runChildrenA, noKill, Bool.false_eq_true, if_false, hi, hx,
            hE.2.2.1 (p ++ [n]), hskip]
          exact ⟨ih.1, by rw [memEvents_append, memEvents_cons_progress, ih.2]; rfl⟩
end

/-- C8.  Idempotence.  Running the same backup a second time against an
unchanged source tree (well-formed: sibling names distinct, as in any real
directory listing), in an error-free cancellation-free run, performs zero
copies — the destination store is unchanged, hence zero overwrite copies —
emits zero byte-count events, and its total of emitted progress units
equals the first run's total. -/
theorem C8_second_run_is_noop (env : Env) (hE : ErrorFree env) (ign : List FsPath)
    (exts : List String) (p : FsPath) (e : Entry) (dP : FsPath) (root : Bool) (d : Dst)
    (hwf : wfEntry e = true) :
    (runAll env ign exts noKill p e dP root
        (runAll env ign exts noKill p e dP root d).2).2
      = (runAll env ign exts noKill p e dP root d).2
    ∧ memEvents (runAll env ign exts noKill p e dP root
        (runAll env ign exts noKill p e dP root d).2).1 = 0
    ∧ progressTotal (runAll env ign exts noKill p e dP root
        (runAll env ign exts noKill p e dP root d).2).1
      = progressTotal (runAll env ign exts noKill p e dP root d).1 := by
  have hcov : destCovers ign exts (runAll env ign exts noKill p e dP root d).2 p e dP root
      = true := by
    simpa [runAll] using covers_after_run_entry env hE ign exts e p dP root d hwf
  have hno := noop_entry env hE ign exts e p dP root
    (runAll env ign exts noKill p e dP root d).2 hcov
  refine ⟨?_, ?_, ?_⟩
  · simpa [runAll] using hno.1
  · have h2 := hno.2
    simp only [runAll] at h2
    simp [runAll, memEvents_append, memEvents_finishEvents, h2]
  · rw [progressTotal_runAll env hE ign exts p e dP root, progressTotal_runAll env hE ign exts p e dP root d]

/-! ## With no exclusions every excluded-directory effect is absent -/

mutual
theorem noExclDirs_nil : ∀ (e : Entry) (p : FsPath), noExclDirs [] p e = true
  | .file _ _, _ => rfl
  | .dir cs, p => by
    simp only [noExclDirs]
    exact noExclDirsL_nil cs p

theorem noExclDirsL_nil : ∀ (cs : EntryList) (p : FsPath), noExclDirsL [] p cs = true
  | .nil, _ => rfl
  | .cons n c rest, p => by
    cases c with
    | dir cs' =>
      simp [noExclDirsL, noExclDirs_nil (.dir cs') (p ++ [n]), noExclDirsL_nil rest p]
    | file sz mt => simp [noExclDirsL, noExclDirsL_nil rest p]
end

/-! ## With the empty string among the excluded suffixes, nothing is copied -/

mutual
theorem noCopy_entry (env : Env) (ign : List FsPath) (exts : List String)
    (killed : Nat → Bool) (hx : "" ∈ exts) :
    ∀ (e : Entry) (p dP : FsPath) (root : Bool) (d : Dst),
    (runAllE env ign exts killed p e dP root d).2.1 = d
    ∧ memEvents (runAllE env ign exts killed p e dP root d).1 = 0
  | .file sz mt, p, dP, root, d => by
    simp [runAllE, any_pyEndswith_of_empty_mem exts hx (lastName p), memEvents]
  | .dir cs, p, dP, root, d => by
    by_cases h1 : env.mkdirFails dP
    · simp [runAllE, h1, memEvents]
    · by_cases h2 : (root && env.mkdirFails (dP ++ [lastName p]))
      · simp [runAllE, h1, h2, memEvents]
      · by_cases h3 : env.listFails p
        · simp [runAllE, h1, h2, h3, memEvents]
        · simp only [runAllE, h1, h2, h3, Bool.false_eq_true, if_false]
          exact noCopy_children env ign exts killed hx cs p _ 0 d

theorem noCopy_children (env : Env) (ign : List FsPath) (exts : List String)
    (killed : Nat → Bool) (hx : "" ∈ exts) :
    ∀ (cs : EntryList) (p dP : FsPath) (i : Nat) (d : Dst),
    (runChildrenA env ign exts killed p dP cs i d).2.1 = d
    ∧ memEvents (runChildrenA env ign exts killed p dP cs i d).1 = 0
  | .nil, p, dP, i, d => by simp [runChildrenA, memEvents]
  | .cons n c rest, p, dP, i, d => by
    by_cases hk : killed i
    · simp [runChildrenA, hk, memEvents]
    · by_cases hi : (p ++ [n]) ∈ ign
      · have ih := noCopy_children env ign exts killed hx rest p dP (i + 1) d
        simp only [runChildrenA, hk, hi, Bool.false_eq_true, if_false, if_true]
        exact ⟨ih.1, by rw [memEvents_cons_progress, memEvents_cons_status]; exact ih.2⟩
      · cases c with
        | dir cs' =>
          have ihc := noCopy_entry env ign exts killed hx (.dir cs') (p ++ [n])
            (dP ++ [n]) false d
          have ih := noCopy_children env ign exts killed hx rest p dP (i + 1) d
          simp only [runChildrenA, hk, hi, Bool.false_eq_true, if_false, ihc.1]
          exact ⟨ih.1, by simp [memEvents_append, memEvents_finishEvents, ihc.2, ih.2]⟩
        | file sz mt =>
          have ih := noCopy_children env ign exts killed hx rest p dP (i + 1) d
          simp only [runChildrenA, hk, hi, Bool.false_eq_true, if_false,
            any_pyEndswith_of_empty_mem exts hx n, if_true]
          exact ⟨ih.1, by rw [memEvents_cons_progress, memEvents_cons_status]; exact ih.2⟩
end

/-- C9.  If the excluded-extension list contains the empty string — which
the GUI produces by splitting input text such as `"jpg,png,"` on commas —
then every file name passes the suffix test: in an error-free,
cancellation-free whole run over a selection with no explicit path
exclusions, no file is ever copied (the destination store is unchanged and
no byte-count event is emitted), every file still contributes exactly one
progress unit, and each file child met during traversal yields exactly its
one progress unit together with the ignoring-extension status event. -/
theorem C9_empty_extension_blocks_all_copies (exts : List String) (hx : "" ∈ exts) :
    "" ∈ splitExts "jpg,png,"
    ∧ (∀ (env : Env), ErrorFree env →
        ∀ (p : FsPath) (e : Entry) (dP : FsPath) (root : Bool) (d : Dst),
        (runAll env [] exts noKill p e dP root d).2 = d
        ∧ memEvents (runAll env [] exts noKill p e dP root d).1 = 0
        ∧ progressTotal (runAll env [] exts noKill p e dP root d).1 = walkCount e)
    ∧ (∀ (env : Env) (ign : List FsPath) (killed : Nat → Bool) (p dP : FsPath)
        (n : String) (sz mt : Nat) (rest : EntryList) (i : Nat) (d : Dst),
        killed i = false → (p ++ [n]) ∉ ign →
        runChildrenA env ign exts killed p dP (.cons n (.file sz mt) rest) i d
          = (Event.progress 1 :: Event.status ("ignoring extension: " ++ n ++ "...") ::
              (runChildrenA env ign exts killed p dP rest (i + 1) d).1,
             (runChildrenA env ign exts killed p dP rest (i + 1) d).2)) := by
  refine ⟨by decide, ?_, ?_⟩
  · intro env hE p e dP root d
    have hn := noCopy_entry env [] exts noKill hx e p dP root d
    refine ⟨by simpa [runAll] using hn.1, ?_, ?_⟩
    · simp [runAll, memEvents_append, memEvents_finishEvents, hn.2]
    · rw [progressTotal_runAll env hE [] exts p e dP root d,
        progCount_eq_walkCount [] exts e p (noExclDirs_nil e p)]
  · intro env ign killed p dP n sz mt rest i d hk hi
    simp [runChildrenA, hk, hi, any_pyEndswith_of_empty_mem exts hx n]

/-- C1 counterexample.  An error-free, cancellation-free run (`okEnv`,
`noKill`) over a single included directory whose exclusion set contains the
path of a subdirectory holding two files: the run emits one progress unit
for the excluded directory while `count_total_files`, which walks the whole
included tree, counts its two files — so the emitted total never reaches
`total_expected`. -/
theorem C1_counterexample :
    progressTotal (runSelection okEnv [["s", "d", "e"]] []
        [(["s", "d"], cexTree)] ["b"] []).1 = 1
    ∧ count_total_files [(["s", "d"], cexTree)] = 2 := by
  constructor
  · decide
  · decide

/-- C1 (amended).  For every error-free, cancellation-free run in which no
excluded path met during traversal refers to a directory, the total of the
progress units emitted by all Task Units equals the precomputed
`count_total_files` of the included selection.  (When the exclusion set
does contain a directory path, the run emits one unit for the excluded
directory while `count_total_files` counts every file beneath it, so the
equality fails — see the counterexample.) -/
theorem C1_total_progress_eq_count (env : Env) (hE : ErrorFree env) (ign : List FsPath)
    (exts : List String) (roots : List (FsPath × Entry)) (dstRoot : FsPath) (d : Dst)
    (hnd : ∀ r ∈ roots, noExclDirs ign r.1 r.2 = true) :
    progressTotal (runSelection env ign exts roots dstRoot d).1
      = count_total_files roots := by
  rw [progressTotal_runSelection env hE ign exts roots dstRoot d]
  unfold count_total_files
  congr 1
  exact List.map_congr_left fun r hr => progCount_eq_walkCount ign exts r.2 r.1 (hnd r hr)

/-! ## Witnesses: the claim theorems applied at concrete inputs -/

theorem C1_total_progress_eq_count_witness :
    progressTotal (runSelection okEnv [["s", "a.txt"]] ["tmp"]
        [(["s"], abTree)] ["b"] []).1
      = count_total_files [(["s"], abTree)] :=
  C1_total_progress_eq_count okEnv okEnv_errorFree [["s", "a.txt"]] ["tmp"]
    [(["s"], abTree)] ["b"] [] (by decide)

theorem C2_overwrite_law_witness :
    (backupFile okEnv ["a"] 7 9 ["b"] [(["b"], 1, 5)]).2 = setFile [(["b"], 1, 5)] ["b"] 7 9 :=
  ((C2_overwrite_law okEnv ["a"] 7 9 ["b"] [(["b"], 1, 5)] (1, 5) (by decide)).2.2 rfl).1
    (by omega)

theorem C4_copy_failure_asymmetry_witness :
    backupFile badCopyEnv ["a"] 5 9 ["b", "a"] []
      = ([Event.status "a...", Event.error "error copying new file a"], []) :=
  (C4_copy_failure_asymmetry badCopyEnv ["a"] 5 9 ["b", "a"] []).1 (by decide) rfl

theorem C5_extension_exclusion_witness :
    runUnit okEnv [] ["jpg"] noKill ["s", "x.jpg"] (.file 3 4) ["b"] true []
      = ([Event.status "x.jpg...", Event.progress 1, Event.finished], []) :=
  (C5_extension_exclusion okEnv [] ["jpg"] noKill).1 ["s", "x.jpg"] ["b"] 3 4 true []
    (by decide)

theorem C6_kill_marks_tracked_workers_witness :
    (Worker.kill mkBackupSelection).is_killed = true
    ∧ runUnit okEnv [] [] (fun _ => true) ["s"] (.dir (.cons "a" (.file 1 1) .nil))
        ["b"] true []
      = ([Event.status "worker killed", Event.finished], []) :=
  ⟨C6_kill_marks_tracked_workers.1 [mkBackupSelection] (Worker.kill mkBackupSelection)
      (by decide),
   C6_kill_marks_tracked_workers.2.2 okEnv [] [] ["s"] ["b"] true [] "a" (.file 1 1) .nil
      rfl rfl rfl⟩

theorem C7_no_exception_escapes_witness :
    runUnit badListEnv [] [] noKill ["s"] (.dir .nil) ["b"] false []
      = ([Event.error "error running backup for s", Event.finished], []) := by
  have h := (C7_no_exception_escapes badListEnv [] [] noKill ["s"] (.dir .nil) ["b"]
    false []).2.1 [] [] rfl
  simpa using h

theorem C8_second_run_is_noop_witness :
    memEvents (runAll okEnv [] [] noKill ["s"] abTree ["b"] true
        (runAll okEnv [] [] noKill ["s"] abTree ["b"] true []).2).1 = 0
    ∧ progressTotal (runAll okEnv [] [] noKill ["s"] abTree ["b"] true
        (runAll okEnv [] [] noKill ["s"] abTree ["b"] true []).2).1
      = progressTotal (runAll okEnv [] [] noKill ["s"] abTree ["b"] true []).1 :=
  (C8_second_run_is_noop okEnv okEnv_errorFree [] [] ["s"] abTree ["b"] true []
    (by decide)).2

theorem C9_empty_extension_blocks_all_copies_witness :
    (runAll okEnv [] (splitExts "jpg,png,") noKill ["s"] abTree ["b"] true []).2 = []
    ∧ progressTotal (runAll okEnv [] (splitExts "jpg,png,") noKill ["s"] abTree
        ["b"] true []).1 = walkCount abTree := by
  have h := (C9_empty_extension_blocks_all_copies (splitExts "jpg,png,")
    (by decide)).2.1 okEnv okEnv_errorFree ["s"] abTree ["b"] true []
  exact ⟨h.1, h.2.2⟩
